import Mathlib

/-!
Verification of `src/utils/heatmap.py` (Grad-CAM heatmap generator and overlay renderer)

This file shallowly embeds the two methods of the Python class `heatmap`:

* `make_heatmap(img_array, model, last_conv_layer_name)` — computes a
  gradient-weighted class-activation heatmap; and
* `image(image, heatmap)` — renders the heatmap as a 64×64 overlay on a base
  image and saves the figure to a fixed path.

Modelling conventions:

* Floating-point tensors are modelled over `ℚ`.  A tensor of shape
  `(b, h, w, c)` is a function `Fin b → Fin h → Fin w → Fin c → ℚ`; TensorFlow
  requires nonempty tensors for the reductions used here, so all shapes are
  written as successors `b+1`, `h+1`, `w+1`, `c+1`, `k+1`.
* The single floating-point division in the source
  (`tf.maximum(heatmap, 0) / tf.math.reduce_max(heatmap)`) can produce a
  non-finite float (NaN from `0/0`).  Division is embedded as `tfDiv`, which
  returns `none` exactly when the divisor is zero (the NaN case here, since
  the numerator is then also zero) and `some (a / b)` otherwise.
* The Keras model and the autodiff engine are external collaborators: the
  embedding of `make_heatmap` takes the forward pass's outputs
  (`last_conv_layer_output`, `preds`) and the gradient capability `gradOf`
  (the gradient tensor produced by `tape.gradient` for each possible selected
  class index) as inputs.
-/

/-- A rank-4 tensor of shape `(b, h, w, c)` over `ℚ` (batch, height, width,
channels), the shape of `last_conv_layer_output` and of `grads`. -/
def Tensor4 (b h w c : ℕ) : Type := Fin b → Fin h → Fin w → Fin c → ℚ

/-- A 2-D spatial grid of shape `(h, w)` over `ℚ`, the shape of the squeezed
heatmap. -/
def Grid (h w : ℕ) : Type := Fin h → Fin w → ℚ

/-- TensorFlow division of a clamped tensor entry by a scalar, with the
zero divisor producing a non-finite float: `none` models NaN (the only
zero-divisor case reachable in `make_heatmap` is `0/0`). -/
def tfDiv (a m : ℚ) : Option ℚ :=
  if m = 0 then none else some (a / m)

/-- Scan of `tf.argmax` on the final dimension, scanning indices `0..n`: the running
best index is replaced only on a strictly larger value, so ties keep the
earlier index ("first maximum encountered"). -/
def argmaxGo {k : ℕ} (v : Fin (k + 1) → ℚ) : ℕ → Fin (k + 1)
  | 0 => 0
  | n + 1 =>
    if hlt : n + 1 < k + 1 then
      (if v ⟨n + 1, hlt⟩ > v (argmaxGo v n) then ⟨n + 1, hlt⟩ else argmaxGo v n)
    else argmaxGo v n

/-- The selection `pred_index = tf.argmax(preds[0])`: index of the first maximum of the
prediction vector. -/
def tf_argmax {k : ℕ} (v : Fin (k + 1) → ℚ) : Fin (k + 1) :=
  argmaxGo v k

/-- The pooling `pooled_grads = tf.reduce_mean(grads, axis=(0, 1, 2))`: the joint mean of
the gradient tensor over the batch and both spatial axes — the sum of all
entries of one channel divided by the number of summed positions. -/
def reduce_mean3 {b h w c : ℕ} (grads : Tensor4 (b + 1) (h + 1) (w + 1) (c + 1)) :
    Fin (c + 1) → ℚ :=
  fun ch =>
    (∑ i : Fin (b + 1), ∑ j : Fin (h + 1), ∑ l : Fin (w + 1), grads i j l ch) /
      ((b + 1 : ℚ) * (h + 1 : ℚ) * (w + 1 : ℚ))

/-- The expansion `pooled_grads[..., tf.newaxis]`: append a trailing singleton axis, turning
the length-`c` vector into a `(c, 1)` column matrix. -/
def newaxis_col {c : ℕ} (pg : Fin c → ℚ) : Fin c → Fin 1 → ℚ :=
  fun ch _ => pg ch

/-- The product `last_conv_layer_output[0] @ M` for a `(c, 1)` matrix `M`: at each spatial
position, the matrix-vector product over the channel axis, leaving a trailing
singleton axis. -/
def matmul3 {h w c : ℕ} (act0 : Fin h → Fin w → Fin c → ℚ)
    (m : Fin c → Fin 1 → ℚ) : Fin h → Fin w → Fin 1 → ℚ :=
  fun i j l => ∑ ch : Fin c, act0 i j ch * m ch l

/-- A NumPy-style array of rank 0, 1 or 2, the possible shapes of the value
returned by `make_heatmap` after the axis-removing squeeze of line 51. -/
inductive NpArray (α : Type) where
  | scalar : α → NpArray α
  | vector : List α → NpArray α
  | matrix : List (List α) → NpArray α

/-- Rank (number of dimensions) of an `NpArray`. -/
def np_rank {α : Type} : NpArray α → ℕ
  | NpArray.scalar _ => 0
  | NpArray.vector _ => 1
  | NpArray.matrix _ => 2

/-- Elementwise map over an `NpArray`; elementwise tensor operations preserve
the array's shape. -/
def np_map {α β : Type} (f : α → β) : NpArray α → NpArray β
  | NpArray.scalar a => NpArray.scalar (f a)
  | NpArray.vector v => NpArray.vector (v.map f)
  | NpArray.matrix m => NpArray.matrix (m.map (List.map f))

/-- The squeeze `tf.squeeze` of line 51, called with no axis argument: it
removes every size-1 dimension of the `(h, w, 1)`-shaped tensor, not only the
trailing channel axis.  The result is rank 2 exactly when both spatial
dimensions exceed 1, rank 1 when exactly one of them is 1, and rank 0 for a
1×1 spatial shape.  No values are reordered: the surviving entries keep their
spatial order. -/
def tf_squeeze {h w : ℕ} (g : Fin (h + 1) → Fin (w + 1) → Fin 1 → ℚ) : NpArray ℚ :=
  if h = 0 then
    if w = 0 then NpArray.scalar (g 0 0 0)
    else NpArray.vector (List.ofFn (fun j => g 0 j 0))
  else if w = 0 then NpArray.vector (List.ofFn (fun i => g i 0 0))
  else NpArray.matrix (List.ofFn (fun i => List.ofFn (fun j => g i j 0)))

/-- The reduction `tf.math.reduce_max` over all entries of a (nonempty) 2-D tensor. -/
def reduce_max {h w : ℕ} (g : Grid (h + 1) (w + 1)) : ℚ :=
  Finset.univ.sup' Finset.univ_nonempty
    (fun p : Fin (h + 1) × Fin (w + 1) => g p.1 p.2)

/-- The raw (pre-normalization) heatmap values built by lines 49–51 of the
source, indexed by spatial position: take the first batch element of the
layer activation and matrix-multiply with the column of pooled gradients;
the trailing axis of that product is singleton, so its entries are exactly
the entries of `tf_squeeze` of it (squeezing removes axes, never values),
indexed here by the original spatial coordinates `(i, j)`. -/
def raw_heatmap (b h w c : ℕ)
    (last_conv_layer_output : Tensor4 (b + 1) (h + 1) (w + 1) (c + 1))
    (grads : Tensor4 (b + 1) (h + 1) (w + 1) (c + 1)) : Grid (h + 1) (w + 1) :=
  fun i j => matmul3 (last_conv_layer_output 0) (newaxis_col (reduce_mean3 grads)) i j 0

/-- Transcription of `heatmap.make_heatmap` from `src/utils/heatmap.py`.

The model's forward pass is an input: `last_conv_layer_output` and `preds`
are the two outputs of `grad_model(img_array)`, and `gradOf i` is the
gradient tensor `tape.gradient(preds[:, i], last_conv_layer_output)` the
autodiff engine would return for class index `i`.  The body then follows the
source line by line: select `pred_index` by `tf.argmax(preds[0])`, pool the
gradients with `tf.reduce_mean(..., axis=(0,1,2))`, form
`last_conv_layer_output[0] @ pooled_grads[..., tf.newaxis]`, squeeze, and
normalize by `tf.maximum(heatmap, 0) / tf.math.reduce_max(heatmap)` — the
divisor being the maximum of the *unclamped* tensor, since Python evaluates
the right-hand side before rebinding `heatmap`.

This function gives the *entries* of the returned array, indexed by the
spatial position `(i, j)` of the target activation: line 51's `tf.squeeze`
(no axis argument) removes every size-1 axis but reorders no values, the
normalization is elementwise, and the global `reduce_max` ranges over the
same set of entries whatever the squeezed rank.  The faithful arrangement of
these entries into the returned rank-0/1/2 NumPy array is
`make_heatmap_np`. -/
def make_heatmap (b h w c k : ℕ)
    (last_conv_layer_output : Tensor4 (b + 1) (h + 1) (w + 1) (c + 1))
    (preds : Fin (b + 1) → Fin (k + 1) → ℚ)
    (gradOf : Fin (k + 1) → Tensor4 (b + 1) (h + 1) (w + 1) (c + 1)) :
    Fin (h + 1) → Fin (w + 1) → Option ℚ :=
  let pred_index := tf_argmax (preds 0)
  let grads := gradOf pred_index
  let pooled_grads := reduce_mean3 grads
  let act0 := last_conv_layer_output 0
  let hm3 := matmul3 act0 (newaxis_col pooled_grads)
  let hm : Grid (h + 1) (w + 1) := fun i j => hm3 i j 0
  fun i j => tfDiv (max (hm i j) 0) (reduce_max hm)

/-- The array returned by `make_heatmap`, with its faithful shape: the
matmul output of lines 49–50 is squeezed by the no-axis `tf.squeeze` of
line 51 (removing every size-1 dimension), and line 54's normalization is
applied elementwise — the divisor `reduce_max` is the maximum over all
entries, which is the same set of entries in whatever rank the squeeze
produced. -/
def make_heatmap_np (b h w c k : ℕ)
    (last_conv_layer_output : Tensor4 (b + 1) (h + 1) (w + 1) (c + 1))
    (preds : Fin (b + 1) → Fin (k + 1) → ℚ)
    (gradOf : Fin (k + 1) → Tensor4 (b + 1) (h + 1) (w + 1) (c + 1)) :
    NpArray (Option ℚ) :=
  np_map
    (fun x => tfDiv (max x 0)
      (reduce_max (raw_heatmap b h w c last_conv_layer_output
        (gradOf (tf_argmax (preds 0))))))
    (tf_squeeze (matmul3 (last_conv_layer_output 0)
      (newaxis_col (reduce_mean3 (gradOf (tf_argmax (preds 0)))))))

/-- Per-channel pooled importance as the specification words it: the mean
over the width axis, then over the height axis, then over the batch axis. -/
def pooled_of {b h w c : ℕ} (grads : Tensor4 (b + 1) (h + 1) (w + 1) (c + 1)) :
    Fin (c + 1) → ℚ :=
  fun ch =>
    (∑ i : Fin (b + 1),
        (∑ j : Fin (h + 1), (∑ l : Fin (w + 1), grads i j l ch) / (w + 1 : ℚ)) /
          (h + 1 : ℚ)) / (b + 1 : ℚ)

/-- The raw heatmap as the specification words it: at each spatial position,
the sum over channels of the first batch element's activation times the
pooled importance of that channel. -/
def raw_of (b h w c : ℕ)
    (last_conv_layer_output : Tensor4 (b + 1) (h + 1) (w + 1) (c + 1))
    (grads : Tensor4 (b + 1) (h + 1) (w + 1) (c + 1)) : Grid (h + 1) (w + 1) :=
  fun i j => ∑ ch : Fin (c + 1), last_conv_layer_output 0 i j ch * pooled_of grads ch

/-- Normalization as claimed by the specification: clamp the negatives to
zero and divide by the global maximum of the *clamped* array (compared
against the source's normalization, which divides by the maximum of the
unclamped array). -/
def spec_normalize {h w : ℕ} (raw : Grid (h + 1) (w + 1)) :
    Fin (h + 1) → Fin (w + 1) → Option ℚ :=
  let clamped : Grid (h + 1) (w + 1) := fun i j => max (raw i j) 0
  fun i j => tfDiv (clamped i j) (reduce_max clamped)

/-! The overlay renderer `heatmap.image`

`image(image, heatmap)` draws the base image in grayscale, draws
`cv2.resize(heatmap, (64, 64))` on top with `alpha=0.4`, saves the figure to
the literal path `"data/save_fig/fig_saved.png"`, and returns the plotting
handle.  Images are modelled as nested lists so the spatial dimensions are
data; the filesystem is modelled explicitly so that the save either
overwrites the file at the fixed path or fails when its directory is
absent. -/

/-- The composite figure assembled by `heatmap.image` before saving: the
grayscale base layer, the resized overlay layer, and the overlay opacity. -/
structure RenderResult where
  base : List (List ℚ)
  overlay : List (List ℚ)
  alpha : ℚ
deriving DecidableEq

/-- Modelled from the spec: `cv2.resize(heatmap, (64, 64))` is an external
library call; the spec fixes only that the result has 64×64 spatial
resolution regardless of the input's dimensions.  Sampling is modelled as
nearest-neighbour; out-of-range reads default to `0`. -/
def cv2_resize_64 (hm : List (List ℚ)) : List (List ℚ) :=
  List.ofFn (fun i : Fin 64 =>
    List.ofFn (fun j : Fin 64 =>
      ((hm.getD (i.1 * hm.length / 64) []).getD
        (j.1 * (hm.headD []).length / 64) 0)))

/-- Parent directory of a `/`-separated path: everything before the last
separator (empty when the path has no separator). -/
def dirname (p : String) : String :=
  String.mk (((p.data.reverse.dropWhile (fun ch => ch ≠ Char.ofNat 47)).drop 1).reverse)

/-- A filesystem: the set of existing directories (fixed — nothing here
creates one) and the saved figures keyed by path. -/
structure FileSystem where
  dirs : List String
  files : List (String × RenderResult)
deriving DecidableEq

/-- Content of the file at `p`, when present. -/
def readFile (fs : FileSystem) (p : String) : Option RenderResult :=
  (fs.files.find? (fun e => e.1 == p)).map Prod.snd

/-- Modelled from the spec: `plt.savefig(path)` is an external library call;
the spec fixes that it overwrites any existing file at `path`, creates no
directory, and fails when the parent directory of `path` does not exist. -/
def savefig (fs : FileSystem) (path : String) (fig : RenderResult) :
    Except String FileSystem :=
  if dirname path ∈ fs.dirs then
    Except.ok
      { dirs := fs.dirs
        files := (path, fig) :: fs.files.filter (fun e => e.1 != path) }
  else Except.error "FileNotFoundError"

/-- The hard-coded destination of every overlay render. -/
def savefig_path : String := "data/save_fig/fig_saved.png"

/-- The figure assembled by `heatmap.image` for a given base image and
heatmap: grayscale base, 64×64-resized overlay, opacity `0.4`. -/
def the_fig (img : List (List ℚ)) (hm : List (List ℚ)) : RenderResult :=
  { base := img, overlay := cv2_resize_64 hm, alpha := 2 / 5 }

/-- Transcription of `heatmap.image` from `src/utils/heatmap.py`: compose the
grayscale base image with the heatmap resized to 64×64 at opacity 0.4, save
the figure to the fixed path, and return the figure (the plotting handle). -/
def image (fs : FileSystem) (img : List (List ℚ)) (hm : List (List ℚ)) :
    Except String (RenderResult × FileSystem) :=
  match savefig fs savefig_path (the_fig img hm) with
  | Except.ok fs2 => Except.ok (the_fig img hm, fs2)
  | Except.error e => Except.error e

/-- The heatmap as a nested list (rows of entries), making the spatial
dimensions of the returned array explicit data. -/
def heatmap_to_lists {h w : ℕ} (g : Fin h → Fin w → Option ℚ) :
    List (List (Option ℚ)) :=
  List.ofFn (fun i => List.ofFn (fun j => g i j))

/-! Concrete inputs used to instantiate the theorems -/

/-- A constant `1×1×1×1` tensor. -/
def constT (q : ℚ) : Tensor4 1 1 1 1 := fun _ _ _ _ => q

/-- A constant `1×1` prediction matrix (batch 1, one class). -/
def constPreds (q : ℚ) : Fin 1 → Fin 1 → ℚ := fun _ _ => q

/-- A gradient capability returning the same constant tensor for every
class. -/
def constGrad (q : ℚ) : Fin 1 → Tensor4 1 1 1 1 := fun _ => constT q

/-- A constant activation of spatial shape 1×2 (height 1, width 2). -/
def rowAct (q : ℚ) : Tensor4 1 1 2 1 := fun _ _ _ _ => q

/-- A gradient capability of spatial shape 1×2, constant. -/
def rowGrad (q : ℚ) : Fin 1 → Tensor4 1 1 2 1 := fun _ _ _ _ _ => q

/-- A constant activation of spatial shape 2×2. -/
def sqAct (q : ℚ) : Tensor4 1 2 2 1 := fun _ _ _ _ => q

/-- A gradient capability of spatial shape 2×2, constant. -/
def sqGrad (q : ℚ) : Fin 1 → Tensor4 1 2 2 1 := fun _ _ _ _ _ => q

/-- A batch-1 prediction vector over three classes with a tie between the
second and third class: values `(1, 3, 3)`. -/
def tiePreds : Fin 1 → Fin 3 → ℚ := fun _ j => if j = 0 then 1 else 3

/-- A gradient capability over three classes, constant per tensor. -/
def triGrad : Fin 3 → Tensor4 1 1 1 1 := fun _ => constT 1

/-- A one-pixel grayscale base image. -/
def onePix : List (List ℚ) := [[1]]

/-- A filesystem that has the save directory and one unrelated file. -/
def fsWithDir : FileSystem :=
  { dirs := ["data/save_fig"]
    files := [("data/other.png", { base := [], overlay := [], alpha := 1 })] }

/-- A filesystem with no directories at all. -/
def fsEmpty : FileSystem := { dirs := [], files := [] }

/-! General lemmas about the embedded operations -/

theorem argmaxGo_le {k : ℕ} (v : Fin (k + 1) → ℚ) (n : ℕ) :
    (argmaxGo v n : ℕ) ≤ n := by
  induction n with
  | zero => exact Nat.le_refl 0
  | succ n ih =>
    unfold argmaxGo
    split
    · split
      · exact Nat.le_refl (n + 1)
      · exact Nat.le_succ_of_le ih
    · exact Nat.le_succ_of_le ih

theorem le_argmaxGo {k : ℕ} (v : Fin (k + 1) → ℚ) (n : ℕ) (i : Fin (k + 1))
    (hi : (i : ℕ) ≤ n) : v i ≤ v (argmaxGo v n) := by
  induction n with
  | zero =>
    have : i = 0 := Fin.ext (Nat.le_zero.mp hi)
    subst this
    exact le_of_eq rfl
  | succ n ih =>
    unfold argmaxGo
    rcases Nat.lt_or_ge (i : ℕ) (n + 1) with hlt | hge
    · have hle := ih (Nat.lt_succ_iff.mp hlt)
      split
      · split
        · exact le_of_lt (lt_of_le_of_lt hle (by assumption))
        · exact hle
      · exact hle
    · have hieq : (i : ℕ) = n + 1 := Nat.le_antisymm hi hge
      have hklt : n + 1 < k + 1 := hieq ▸ i.isLt
      have hieq2 : i = ⟨n + 1, hklt⟩ := Fin.ext hieq
      rw [dif_pos hklt]
      by_cases hcmp : v ⟨n + 1, hklt⟩ > v (argmaxGo v n)
      · rw [if_pos hcmp, hieq2]
      · rw [if_neg hcmp, hieq2]
        exact le_of_not_lt hcmp

theorem argmaxGo_first {k : ℕ} (v : Fin (k + 1) → ℚ) (n : ℕ) (i : Fin (k + 1))
    (hi : (i : ℕ) < (argmaxGo v n : ℕ)) : v i < v (argmaxGo v n) := by
  induction n with
  | zero => exact absurd hi (by simp [argmaxGo])
  | succ n ih =>
    unfold argmaxGo at hi ⊢
    by_cases hklt : n + 1 < k + 1
    · rw [dif_pos hklt] at hi ⊢
      by_cases hcmp : v ⟨n + 1, hklt⟩ > v (argmaxGo v n)
      · rw [if_pos hcmp] at hi ⊢
        have hle : (i : ℕ) ≤ n := by
          simpa using Nat.lt_succ_iff.mp hi
        exact lt_of_le_of_lt (le_argmaxGo v n i hle) hcmp
      · rw [if_neg hcmp] at hi ⊢
        exact ih hi
    · rw [dif_neg hklt] at hi ⊢
      exact ih hi

theorem le_tf_argmax {k : ℕ} (v : Fin (k + 1) → ℚ) (i : Fin (k + 1)) :
    v i ≤ v (tf_argmax v) :=
  le_argmaxGo v k i (Nat.lt_succ_iff.mp i.isLt)

theorem tf_argmax_first {k : ℕ} (v : Fin (k + 1) → ℚ) (i : Fin (k + 1))
    (hi : (i : ℕ) < (tf_argmax v : ℕ)) : v i < v (tf_argmax v) :=
  argmaxGo_first v k i hi

theorem le_reduce_max {h w : ℕ} (g : Grid (h + 1) (w + 1))
    (i : Fin (h + 1)) (j : Fin (w + 1)) : g i j ≤ reduce_max g :=
  Finset.le_sup' (fun p : Fin (h + 1) × Fin (w + 1) => g p.1 p.2)
    (Finset.mem_univ (i, j))

theorem reduce_max_le {h w : ℕ} (g : Grid (h + 1) (w + 1)) (x : ℚ)
    (hx : ∀ i j, g i j ≤ x) : reduce_max g ≤ x :=
  Finset.sup'_le _ _ (fun p _ => hx p.1 p.2)

theorem exists_eq_reduce_max {h w : ℕ} (g : Grid (h + 1) (w + 1)) :
    ∃ i j, reduce_max g = g i j := by
  obtain ⟨p, -, hp⟩ :=
    Finset.exists_mem_eq_sup' (Finset.univ_nonempty)
      (fun p : Fin (h + 1) × Fin (w + 1) => g p.1 p.2)
  exact ⟨p.1, p.2, hp⟩

theorem reduce_max_1x1 (g : Grid 1 1) : reduce_max g = g 0 0 := by
  refine le_antisymm (reduce_max_le g (g 0 0) ?_) (le_reduce_max g 0 0)
  intro i j
  have hi : i = 0 := Fin.ext (Nat.lt_one_iff.mp i.isLt)
  have hj : j = 0 := Fin.ext (Nat.lt_one_iff.mp j.isLt)
  rw [hi, hj]

theorem reduce_mean3_eq_pooled_of {b h w c : ℕ}
    (grads : Tensor4 (b + 1) (h + 1) (w + 1) (c + 1)) (ch : Fin (c + 1)) :
    reduce_mean3 grads ch = pooled_of grads ch := by
  unfold reduce_mean3 pooled_of
  simp only [Finset.sum_div]
  refine Finset.sum_congr rfl (fun i _ => ?_)
  refine Finset.sum_congr rfl (fun j _ => ?_)
  refine Finset.sum_congr rfl (fun l _ => ?_)
  rw [div_div, div_div]
  ring

theorem raw_heatmap_eq_raw_of {b h w c : ℕ}
    (act : Tensor4 (b + 1) (h + 1) (w + 1) (c + 1))
    (grads : Tensor4 (b + 1) (h + 1) (w + 1) (c + 1))
    (i : Fin (h + 1)) (j : Fin (w + 1)) :
    raw_heatmap b h w c act grads i j = raw_of b h w c act grads i j := by
  unfold raw_heatmap raw_of matmul3 newaxis_col
  exact Finset.sum_congr rfl (fun ch _ => by
    rw [reduce_mean3_eq_pooled_of])

theorem reduce_mean3_1111 (grads : Tensor4 1 1 1 1) (ch : Fin 1) :
    reduce_mean3 grads ch = grads 0 0 0 ch := by
  unfold reduce_mean3
  rw [Fin.sum_univ_succ, Fin.sum_univ_succ, Fin.sum_univ_succ]
  norm_num

theorem raw_heatmap_1111 (act grads : Tensor4 1 1 1 1) (i j : Fin 1) :
    raw_heatmap 0 0 0 0 act grads i j = act 0 i j 0 * grads 0 0 0 0 := by
  unfold raw_heatmap matmul3 newaxis_col
  rw [Fin.sum_univ_succ]
  norm_num [reduce_mean3_1111]

theorem make_heatmap_eq {b h w c k : ℕ}
    (act : Tensor4 (b + 1) (h + 1) (w + 1) (c + 1))
    (preds : Fin (b + 1) → Fin (k + 1) → ℚ)
    (gradOf : Fin (k + 1) → Tensor4 (b + 1) (h + 1) (w + 1) (c + 1))
    (i : Fin (h + 1)) (j : Fin (w + 1)) :
    make_heatmap b h w c k act preds gradOf i j =
      tfDiv (max (raw_heatmap b h w c act (gradOf (tf_argmax (preds 0))) i j) 0)
        (reduce_max (raw_heatmap b h w c act (gradOf (tf_argmax (preds 0))))) :=
  rfl

theorem find_eq_of_filter_ne (l : List (String × RenderResult)) (path q : String)
    (hne : q ≠ path) :
    (l.filter (fun e => e.1 != path)).find? (fun e => e.1 == q)
      = l.find? (fun e => e.1 == q) := by
  induction l with
  | nil => rfl
  | cons e l ih =>
    by_cases hep : e.1 = path
    · rw [List.filter_cons_of_neg (p := fun x : String × RenderResult => x.1 != path) (by simp [hep]), ih,
        List.find?_cons_of_neg (p := fun x : String × RenderResult => x.1 == q) _
          (by simp only [beq_iff_eq, hep]; exact fun hcon => hne hcon.symm)]
    · rw [List.filter_cons_of_pos (p := fun x : String × RenderResult => x.1 != path) (by simp [hep])]
      by_cases hq : e.1 = q
      · rw [List.find?_cons_of_pos (p := fun x : String × RenderResult => x.1 == q) _ (by simp [hq]),
          List.find?_cons_of_pos (p := fun x : String × RenderResult => x.1 == q) _ (by simp [hq])]
      · rw [List.find?_cons_of_neg (p := fun x : String × RenderResult => x.1 == q) _ (by simp [hq]),
          List.find?_cons_of_neg (p := fun x : String × RenderResult => x.1 == q) _ (by simp [hq]), ih]

theorem savefig_ok (fs : FileSystem) (path : String) (fig : RenderResult)
    (hdir : dirname path ∈ fs.dirs) :
    savefig fs path fig = Except.ok
      { dirs := fs.dirs
        files := (path, fig) :: fs.files.filter (fun e => e.1 != path) } := by
  unfold savefig
  rw [if_pos hdir]

theorem image_ok (fs : FileSystem) (img hm : List (List ℚ))
    (hdir : dirname savefig_path ∈ fs.dirs) :
    image fs img hm = Except.ok
      (the_fig img hm,
       { dirs := fs.dirs
         files := (savefig_path, the_fig img hm)
           :: fs.files.filter (fun e => e.1 != savefig_path) }) := by
  unfold image
  rw [savefig_ok fs savefig_path (the_fig img hm) hdir]

theorem image_error (fs : FileSystem) (img hm : List (List ℚ))
    (hdir : dirname savefig_path ∉ fs.dirs) :
    image fs img hm = Except.error "FileNotFoundError" := by
  unfold image savefig
  rw [if_neg hdir]

theorem readFile_save_same (fs : FileSystem) (path : String) (fig : RenderResult) :
    readFile
      { dirs := fs.dirs
        files := (path, fig) :: fs.files.filter (fun e => e.1 != path) } path
      = some fig := by
  unfold readFile
  dsimp only
  rw [List.find?_cons_of_pos (p := fun x : String × RenderResult => x.1 == path) _ (by simp)]
  rfl

theorem readFile_save_other (fs : FileSystem) (path p : String) (fig : RenderResult)
    (hne : p ≠ path) :
    readFile
      { dirs := fs.dirs
        files := (path, fig) :: fs.files.filter (fun e => e.1 != path) } p
      = readFile fs p := by
  unfold readFile
  dsimp only
  rw [List.find?_cons_of_neg (p := fun x : String × RenderResult => x.1 == p) _
      (by simp only [beq_iff_eq]; exact fun hcon => hne hcon.symm),
    find_eq_of_filter_ne fs.files path p hne]

/-! Claims -/

/-- C1: for every valid input (activations, predictions, gradient capability)
whose raw heatmap has nonzero maximum, every value of the normalized heatmap
returned by `make_heatmap` is a finite number in the closed interval
`[0, 1]`. -/
theorem make_heatmap_values_in_unit_interval (b h w c k : ℕ)
    (act : Tensor4 (b + 1) (h + 1) (w + 1) (c + 1))
    (preds : Fin (b + 1) → Fin (k + 1) → ℚ)
    (gradOf : Fin (k + 1) → Tensor4 (b + 1) (h + 1) (w + 1) (c + 1))
    (hmax : reduce_max (raw_heatmap b h w c act (gradOf (tf_argmax (preds 0)))) ≠ 0) :
    ∀ i j, ∃ q, make_heatmap b h w c k act preds gradOf i j = some q
      ∧ 0 ≤ q ∧ q ≤ 1 := by
  intro i j
  rw [make_heatmap_eq]
  unfold tfDiv
  rw [if_neg hmax]
  refine ⟨_, rfl, ?_, ?_⟩
  · rcases lt_or_gt_of_ne hmax with hneg | hpos
    · have hclamp :
          max (raw_heatmap b h w c act (gradOf (tf_argmax (preds 0))) i j) 0 = 0 :=
        max_eq_right
          (le_of_lt (lt_of_le_of_lt (le_reduce_max _ i j) hneg))
      rw [hclamp, zero_div]
    · exact div_nonneg (le_max_right _ 0) (le_of_lt hpos)
  · rcases lt_or_gt_of_ne hmax with hneg | hpos
    · have hclamp :
          max (raw_heatmap b h w c act (gradOf (tf_argmax (preds 0))) i j) 0 = 0 :=
        max_eq_right
          (le_of_lt (lt_of_le_of_lt (le_reduce_max _ i j) hneg))
      rw [hclamp, zero_div]
      exact zero_le_one
    · rw [div_le_one hpos]
      exact max_le (le_reduce_max _ i j) (le_of_lt hpos)

/-- Witness for C1 at a concrete input: activation constantly `2`, gradient
constantly `1`, so the raw heatmap is constantly `2` and its maximum is
nonzero. -/
theorem make_heatmap_values_in_unit_interval_witness :
    ∃ q, make_heatmap 0 0 0 0 0 (constT 2) (constPreds 0) (constGrad 1) 0 0 = some q
      ∧ 0 ≤ q ∧ q ≤ 1 :=
  make_heatmap_values_in_unit_interval 0 0 0 0 0 (constT 2) (constPreds 0) (constGrad 1)
    (by rw [reduce_max_1x1, raw_heatmap_1111]; norm_num [constT, constGrad]) 0 0

/-- C2 counterexample: with activation constantly `1` and gradient constantly
`-1`, the raw heatmap is constantly `-1`; the source divides the clamped value
`0` by the unclamped maximum `-1` and returns `0`, while the claimed
normalization would divide by the clamped maximum `0` and be the degenerate
`0/0`.  So `make_heatmap` does not equal the clamp-then-divide-by-clamped-max
normalization of its raw heatmap. -/
theorem make_heatmap_ne_spec_normalize :
    make_heatmap 0 0 0 0 0 (constT 1) (constPreds 0) (constGrad (-1)) 0 0
      ≠ spec_normalize
          (raw_heatmap 0 0 0 0 (constT 1) (constGrad (-1) (tf_argmax (constPreds 0 0)))) 0 0 := by
  have h1 : make_heatmap 0 0 0 0 0 (constT 1) (constPreds 0) (constGrad (-1)) 0 0
      = some 0 := by
    rw [make_heatmap_eq, reduce_max_1x1]
    simp only [raw_heatmap_1111]
    norm_num [constT, constGrad, tfDiv]
  have h2 : spec_normalize
      (raw_heatmap 0 0 0 0 (constT 1) (constGrad (-1) (tf_argmax (constPreds 0 0)))) 0 0
      = none := by
    unfold spec_normalize
    rw [reduce_max_1x1]
    simp only [raw_heatmap_1111]
    norm_num [constT, constGrad, tfDiv]
  rw [h1, h2]
  exact fun hcon => Option.noConfusion hcon

/-- C2 amended: the normalized heatmap equals the raw heatmap with negative
values clamped to zero, divided elementwise by the global maximum of the
*unclamped* raw heatmap (degenerate exactly when that maximum is zero) — not
by the maximum of the clamped array. -/
theorem make_heatmap_normalization_divides_by_unclamped_max (b h w c k : ℕ)
    (act : Tensor4 (b + 1) (h + 1) (w + 1) (c + 1))
    (preds : Fin (b + 1) → Fin (k + 1) → ℚ)
    (gradOf : Fin (k + 1) → Tensor4 (b + 1) (h + 1) (w + 1) (c + 1)) :
    ∀ i j, make_heatmap b h w c k act preds gradOf i j
      = tfDiv (max (raw_of b h w c act (gradOf (tf_argmax (preds 0))) i j) 0)
          (reduce_max (raw_of b h w c act (gradOf (tf_argmax (preds 0))))) := by
  intro i j
  rw [make_heatmap_eq]
  have hgrid : raw_heatmap b h w c act (gradOf (tf_argmax (preds 0)))
      = raw_of b h w c act (gradOf (tf_argmax (preds 0))) :=
    funext (fun i2 => funext (fun j2 => raw_heatmap_eq_raw_of act _ i2 j2))
  rw [hgrid]

/-- C3: if the gradient tensor delivered by the autodiff engine is entirely
zero, the pooled importance vector is all zeros, the raw heatmap is all
zeros, its maximum is zero, and every entry of the returned heatmap is the
unguarded `0/0` (the NaN marker `none`), not an error. -/
theorem make_heatmap_zero_gradient_gives_nan (b h w c k : ℕ)
    (act : Tensor4 (b + 1) (h + 1) (w + 1) (c + 1))
    (preds : Fin (b + 1) → Fin (k + 1) → ℚ)
    (gradOf : Fin (k + 1) → Tensor4 (b + 1) (h + 1) (w + 1) (c + 1))
    (hg : ∀ i j l ch, gradOf (tf_argmax (preds 0)) i j l ch = 0) :
    (∀ ch, reduce_mean3 (gradOf (tf_argmax (preds 0))) ch = 0)
    ∧ (∀ i j, raw_heatmap b h w c act (gradOf (tf_argmax (preds 0))) i j = 0)
    ∧ reduce_max (raw_heatmap b h w c act (gradOf (tf_argmax (preds 0)))) = 0
    ∧ ∀ i j, make_heatmap b h w c k act preds gradOf i j = none := by
  have hpool : ∀ ch, reduce_mean3 (gradOf (tf_argmax (preds 0))) ch = 0 := by
    intro ch
    unfold reduce_mean3
    rw [Finset.sum_eq_zero (fun i _ => Finset.sum_eq_zero (fun j _ =>
      Finset.sum_eq_zero (fun l _ => hg i j l ch))), zero_div]
  have hraw : ∀ i j, raw_heatmap b h w c act (gradOf (tf_argmax (preds 0))) i j = 0 := by
    intro i j
    unfold raw_heatmap matmul3 newaxis_col
    exact Finset.sum_eq_zero (fun ch _ => by rw [hpool ch, mul_zero])
  have hmax : reduce_max (raw_heatmap b h w c act (gradOf (tf_argmax (preds 0)))) = 0 := by
    obtain ⟨i, j, hij⟩ := exists_eq_reduce_max
      (raw_heatmap b h w c act (gradOf (tf_argmax (preds 0))))
    rw [hij, hraw i j]
  refine ⟨hpool, hraw, hmax, ?_⟩
  intro i j
  rw [make_heatmap_eq]
  unfold tfDiv
  rw [if_pos hmax]

/-- Witness for C3 at a concrete input: gradient constantly `0` gives the NaN
marker at the only spatial position. -/
theorem make_heatmap_zero_gradient_gives_nan_witness :
    make_heatmap 0 0 0 0 0 (constT 3) (constPreds 0) (constGrad 0) 0 0 = none :=
  (make_heatmap_zero_gradient_gives_nan 0 0 0 0 0 (constT 3) (constPreds 0) (constGrad 0)
    (fun _ _ _ _ => rfl)).2.2.2 0 0

/-- C4: `make_heatmap` always explains the top-1 predicted class: the
explained index is the position of the maximum of the first batch element's
prediction vector with ties broken by the first maximum encountered, and the
output depends on the predictions only through that selected index — there is
no channel by which a caller could select a different class. -/
theorem make_heatmap_explains_top1 (b h w c k : ℕ)
    (act : Tensor4 (b + 1) (h + 1) (w + 1) (c + 1))
    (preds : Fin (b + 1) → Fin (k + 1) → ℚ)
    (gradOf : Fin (k + 1) → Tensor4 (b + 1) (h + 1) (w + 1) (c + 1)) :
    (∀ j2 : Fin (k + 1), preds 0 j2 ≤ preds 0 (tf_argmax (preds 0)))
    ∧ (∀ j2 : Fin (k + 1), (j2 : ℕ) < (tf_argmax (preds 0) : ℕ) →
        preds 0 j2 < preds 0 (tf_argmax (preds 0)))
    ∧ ∀ preds2 : Fin (b + 1) → Fin (k + 1) → ℚ,
        tf_argmax (preds2 0) = tf_argmax (preds 0) →
        make_heatmap b h w c k act preds2 gradOf
          = make_heatmap b h w c k act preds gradOf := by
  refine ⟨fun j2 => le_tf_argmax _ j2, fun j2 hj => tf_argmax_first _ j2 hj, ?_⟩
  intro preds2 hsel
  funext i j
  rw [make_heatmap_eq, make_heatmap_eq, hsel]

/-- Witness for C4 at a concrete input: prediction vector `(1, 3, 3)`, whose
first maximum is at index `1`; the value at index `0` is strictly below the
selected value. -/
theorem make_heatmap_explains_top1_witness :
    tiePreds 0 0 ≤ tiePreds 0 (tf_argmax (tiePreds 0))
    ∧ tiePreds 0 0 < tiePreds 0 (tf_argmax (tiePreds 0)) :=
  ⟨(make_heatmap_explains_top1 0 0 0 0 2 (constT 1) tiePreds triGrad).1 0,
   (make_heatmap_explains_top1 0 0 0 0 2 (constT 1) tiePreds triGrad).2.1 0 (by decide)⟩

/-- C5: the pooled importance vector computed inside `make_heatmap` equals
the mean of the gradient tensor over the batch axis and both spatial axes
(the iterated per-axis average), and its length equals the number of
channels of the target layer's activation tensor. -/
theorem pooled_vector_is_mean_over_batch_and_spatial_axes (b h w c : ℕ)
    (grads : Tensor4 (b + 1) (h + 1) (w + 1) (c + 1)) :
    (∀ ch, reduce_mean3 grads ch = pooled_of grads ch)
    ∧ (List.ofFn (reduce_mean3 grads)).length = c + 1 :=
  ⟨fun ch => reduce_mean3_eq_pooled_of grads ch, List.length_ofFn _⟩

/-- C6: the raw heatmap is, at each spatial position, the sum over channels
of the first batch element's activation times the pooled importance of that
channel (a matrix-vector product over the channel axis); when the pooled
importance vector is constant, the raw heatmap is proportional to the
per-position sum of all channel activations. -/
theorem raw_heatmap_is_channel_weighted_sum (b h w c : ℕ)
    (act grads : Tensor4 (b + 1) (h + 1) (w + 1) (c + 1)) (lam : ℚ) :
    (∀ i j, raw_heatmap b h w c act grads i j
        = ∑ ch : Fin (c + 1), act 0 i j ch * reduce_mean3 grads ch)
    ∧ ((∀ ch, reduce_mean3 grads ch = lam) →
        ∀ i j, raw_heatmap b h w c act grads i j
          = lam * ∑ ch : Fin (c + 1), act 0 i j ch) := by
  constructor
  · intro i j
    rfl
  · intro hlam i j
    calc raw_heatmap b h w c act grads i j
        = ∑ ch : Fin (c + 1), act 0 i j ch * reduce_mean3 grads ch := rfl
      _ = ∑ ch : Fin (c + 1), act 0 i j ch * lam :=
          Finset.sum_congr rfl (fun ch _ => by rw [hlam ch])
      _ = (∑ ch : Fin (c + 1), act 0 i j ch) * lam := (Finset.sum_mul _ _ _).symm
      _ = lam * ∑ ch : Fin (c + 1), act 0 i j ch := mul_comm _ _

/-- Witness for C6 at a concrete input: gradient constantly `1` pools to the
constant importance `1`, and the raw heatmap is `1` times the channel sum of
the activation. -/
theorem raw_heatmap_is_channel_weighted_sum_witness :
    raw_heatmap 0 0 0 0 (constT 2) (constT 1) 0 0
      = 1 * ∑ ch : Fin 1, constT 2 0 0 0 ch :=
  (raw_heatmap_is_channel_weighted_sum 0 0 0 0 (constT 2) (constT 1) 1).2
    (fun ch => by rw [reduce_mean3_1111]; rfl) 0 0

/-- C7 counterexample: for an activation of spatial shape 1×2 (height 1,
width 2) the no-axis `tf.squeeze` of line 51 removes the size-1 height axis
together with the channel axis, so `make_heatmap` returns a rank-1 vector,
not a 2-D array — the universally quantified 2-D claim fails at this
input. -/
theorem make_heatmap_not_2d_on_unit_spatial_dim :
    (∃ v, make_heatmap_np 0 0 1 0 0 (rowAct 1) (constPreds 0) (rowGrad 1)
        = NpArray.vector v)
    ∧ np_rank (make_heatmap_np 0 0 1 0 0 (rowAct 1) (constPreds 0) (rowGrad 1)) ≠ 2 :=
  ⟨⟨_, rfl⟩, by decide⟩

/-- C7 amended: whenever both spatial dimensions of the target layer's
activation are at least 2, the array returned by `make_heatmap` is 2-D with
spatial dimensions exactly `(height, width)`, the singleton channel axis
removed and the original input image's dimensions nowhere in the shape; when
height or width is 1, the no-axis `tf.squeeze` of line 51 removes that axis
too, so the result is 1-D (or 0-D at 1×1). -/
theorem make_heatmap_2d_when_spatial_dims_exceed_one (b h w c k : ℕ)
    (act : Tensor4 (b + 1) (h + 1) (w + 1) (c + 1))
    (preds : Fin (b + 1) → Fin (k + 1) → ℚ)
    (gradOf : Fin (k + 1) → Tensor4 (b + 1) (h + 1) (w + 1) (c + 1))
    (hh : 0 < h) (hw : 0 < w) :
    make_heatmap_np b h w c k act preds gradOf
      = NpArray.matrix (heatmap_to_lists (make_heatmap b h w c k act preds gradOf))
    ∧ (heatmap_to_lists (make_heatmap b h w c k act preds gradOf)).length = h + 1
    ∧ ∀ row ∈ heatmap_to_lists (make_heatmap b h w c k act preds gradOf),
        row.length = w + 1 := by
  refine ⟨?_, List.length_ofFn _, ?_⟩
  · unfold make_heatmap_np tf_squeeze
    rw [if_neg (Nat.pos_iff_ne_zero.mp hh), if_neg (Nat.pos_iff_ne_zero.mp hw)]
    simp only [np_map, List.map_ofFn, Function.comp_def]
    rfl
  · intro row hrow
    unfold heatmap_to_lists at hrow
    rw [List.mem_ofFn] at hrow
    obtain ⟨i, rfl⟩ := hrow
    exact List.length_ofFn _

/-- Witness for the amended C7 at a concrete input: a 2×2 spatial activation
gives a rank-2 array of two rows of length two. -/
theorem make_heatmap_2d_when_spatial_dims_exceed_one_witness :
    make_heatmap_np 0 1 1 0 0 (sqAct 1) (constPreds 0) (sqGrad 1)
      = NpArray.matrix
          (heatmap_to_lists (make_heatmap 0 1 1 0 0 (sqAct 1) (constPreds 0) (sqGrad 1)))
    ∧ (heatmap_to_lists
        (make_heatmap 0 1 1 0 0 (sqAct 1) (constPreds 0) (sqGrad 1))).length = 2 :=
  ⟨(make_heatmap_2d_when_spatial_dims_exceed_one 0 1 1 0 0 (sqAct 1) (constPreds 0)
      (sqGrad 1) (by decide) (by decide)).1,
   (make_heatmap_2d_when_spatial_dims_exceed_one 0 1 1 0 0 (sqAct 1) (constPreds 0)
      (sqGrad 1) (by decide) (by decide)).2.1⟩

/-- C10: if every raw-heatmap value is strictly negative, the maximum of the
unclamped raw heatmap is negative (hence nonzero), and `make_heatmap` returns
an all-zero heatmap — the clamped numerator is zero everywhere and the
divisor is the nonzero unclamped maximum, so no NaN arises. -/
theorem make_heatmap_all_negative_raw_gives_zero (b h w c k : ℕ)
    (act : Tensor4 (b + 1) (h + 1) (w + 1) (c + 1))
    (preds : Fin (b + 1) → Fin (k + 1) → ℚ)
    (gradOf : Fin (k + 1) → Tensor4 (b + 1) (h + 1) (w + 1) (c + 1))
    (hneg : ∀ i j, raw_heatmap b h w c act (gradOf (tf_argmax (preds 0))) i j < 0) :
    reduce_max (raw_heatmap b h w c act (gradOf (tf_argmax (preds 0)))) < 0
    ∧ ∀ i j, make_heatmap b h w c k act preds gradOf i j = some 0 := by
  have hm : reduce_max (raw_heatmap b h w c act (gradOf (tf_argmax (preds 0)))) < 0 := by
    obtain ⟨i, j, hij⟩ := exists_eq_reduce_max
      (raw_heatmap b h w c act (gradOf (tf_argmax (preds 0))))
    rw [hij]
    exact hneg i j
  refine ⟨hm, fun i j => ?_⟩
  rw [make_heatmap_eq]
  unfold tfDiv
  rw [if_neg (ne_of_lt hm)]
  have hclamp : max (raw_heatmap b h w c act (gradOf (tf_argmax (preds 0))) i j) 0 = 0 :=
    max_eq_right (le_of_lt (hneg i j))
  rw [hclamp, zero_div]

/-- Witness for C10 at a concrete input: activation constantly `2`, gradient
constantly `-1`, so the raw heatmap is constantly `-2 < 0` and the returned
entry is `some 0`. -/
theorem make_heatmap_all_negative_raw_gives_zero_witness :
    make_heatmap 0 0 0 0 0 (constT 2) (constPreds 0) (constGrad (-1)) 0 0 = some 0 :=
  (make_heatmap_all_negative_raw_gives_zero 0 0 0 0 0 (constT 2) (constPreds 0)
    (constGrad (-1))
    (fun i j => by rw [raw_heatmap_1111]; norm_num [constT, constGrad])).2 0 0

/-- C8: whenever the overlay renderer succeeds, the overlay layer of the
composited figure is the heatmap resized to exactly 64×64, regardless of the
heatmap's original dimensions and of the base image's dimensions. -/
theorem image_overlay_always_64x64 (fs : FileSystem) (img hm : List (List ℚ))
    (fig : RenderResult) (fs2 : FileSystem)
    (hok : image fs img hm = Except.ok (fig, fs2)) :
    fig.overlay = cv2_resize_64 hm
    ∧ fig.overlay.length = 64
    ∧ ∀ row ∈ fig.overlay, row.length = 64 := by
  have hfig : fig = the_fig img hm := by
    unfold image at hok
    cases hsv : savefig fs savefig_path (the_fig img hm) with
    | error e =>
      rw [hsv] at hok
      exact Except.noConfusion hok
    | ok fs3 =>
      rw [hsv] at hok
      simp only [Except.ok.injEq, Prod.mk.injEq] at hok
      exact hok.1.symm
  refine ⟨?_, ?_, ?_⟩
  · rw [hfig]
    rfl
  · rw [hfig]
    show (cv2_resize_64 hm).length = 64
    unfold cv2_resize_64
    exact List.length_ofFn _
  · intro row hrow
    rw [hfig] at hrow
    have hrow2 : row ∈ cv2_resize_64 hm := hrow
    unfold cv2_resize_64 at hrow2
    rw [List.mem_ofFn] at hrow2
    obtain ⟨i, rfl⟩ := hrow2
    exact List.length_ofFn _

/-- Witness for C8 at a concrete input: rendering a 1×1 heatmap over a 1×1
base image on a filesystem containing the save directory produces a 64-row
overlay. -/
theorem image_overlay_always_64x64_witness :
    (cv2_resize_64 onePix).length = 64 :=
  (image_overlay_always_64x64 fsWithDir onePix onePix (the_fig onePix onePix) _
    (image_ok fsWithDir onePix onePix (by decide))).2.1

/-- C9: every overlay render writes to the single fixed path
`data/save_fig/fig_saved.png`: on a filesystem containing the target
directory the call succeeds, creates no directory, overwrites the fixed path
with the new figure and changes no other file; a second call with different
inputs writes the same fixed path again rather than a new file; and on any
filesystem missing the target directory the call fails. -/
theorem image_writes_fixed_path_only (fs : FileSystem) (img hm img2 hm2 : List (List ℚ))
    (hdir : dirname savefig_path ∈ fs.dirs) :
    (∃ fs2, image fs img hm = Except.ok (the_fig img hm, fs2)
      ∧ fs2.dirs = fs.dirs
      ∧ readFile fs2 savefig_path = some (the_fig img hm)
      ∧ (∀ p, p ≠ savefig_path → readFile fs2 p = readFile fs p)
      ∧ ∃ fs3, image fs2 img2 hm2 = Except.ok (the_fig img2 hm2, fs3)
        ∧ readFile fs3 savefig_path = some (the_fig img2 hm2)
        ∧ ∀ p, p ≠ savefig_path → readFile fs3 p = readFile fs2 p)
    ∧ ∀ fsX : FileSystem, dirname savefig_path ∉ fsX.dirs →
      image fsX img hm = Except.error "FileNotFoundError" := by
  constructor
  · refine ⟨_, image_ok fs img hm hdir, rfl, readFile_save_same fs savefig_path _,
      fun p hp => readFile_save_other fs savefig_path p _ hp, ?_⟩
    refine ⟨_, image_ok _ img2 hm2 hdir, readFile_save_same _ savefig_path _,
      fun p hp => readFile_save_other _ savefig_path p _ hp⟩
  · intro fsX hn
    exact image_error fsX img hm hn

/-- Witness for C9 at a concrete input: on a filesystem whose directories are
exactly `["data/save_fig"]`, rendering succeeds, adds no directory, and the
fixed path afterwards holds the rendered figure. -/
theorem image_writes_fixed_path_only_witness :
    ∃ fs2, image fsWithDir onePix onePix = Except.ok (the_fig onePix onePix, fs2)
      ∧ fs2.dirs = fsWithDir.dirs
      ∧ readFile fs2 savefig_path = some (the_fig onePix onePix) := by
  obtain ⟨⟨fs2, hok, hdirs, hread, -, -⟩, -⟩ :=
    image_writes_fixed_path_only fsWithDir onePix onePix onePix onePix (by decide)
  exact ⟨fs2, hok, hdirs, hread⟩
